import Mathlib

/-!
Verification of the nc-music-venues scraper/discovery code.

The JavaScript sources under scripts/ and netlify/functions/ are embedded
shallowly: the regex-based extractors (`extractEmail`, `extractPhone`,
`extractCapacity`, `extractGenres` in scripts/venue-scraper.js) are modelled
with a small backtracking regex engine whose priority order mirrors the
JavaScript engine (leftmost match, greedy quantifiers, ordered alternation),
and the file/collection operations are modelled as pure functions on lists.
-/

/-! ## JavaScript character classes -/

/-- JS `\d`: the ASCII digits. -/
def jsIsDigit (c : Char) : Bool := 48 ≤ c.toNat && c.toNat ≤ 57

/-- JS `\w`: ASCII letters, digits and underscore (used by `\b`). -/
def jsIsWordChar (c : Char) : Bool :=
  (65 ≤ c.toNat && c.toNat ≤ 90) || (97 ≤ c.toNat && c.toNat ≤ 122) ||
  jsIsDigit c || c.toNat == 95

/-- JS `\s` restricted to the whitespace characters that can occur here:
tab, LF, VT, FF, CR, space and NBSP. -/
def jsIsSpace (c : Char) : Bool :=
  (9 ≤ c.toNat && c.toNat ≤ 13) || c.toNat == 32 || c.toNat == 160

/-- The character class `[:\s]` used after keywords in the source regexes. -/
def isColonSpace (c : Char) : Bool := c == ':' || jsIsSpace c

/-- The character class `[-.\s]` used between phone-number groups. -/
def isDashDotSpace (c : Char) : Bool := c == '-' || c == '.' || jsIsSpace c

/-- The email local-part class `[a-zA-Z0-9._%+-]`. -/
def isEmailLocalChar (c : Char) : Bool :=
  c.isAlpha || jsIsDigit c || c == '.' || c == '_' || c == '%' || c == '+' || c == '-'

/-- The email domain class `[a-zA-Z0-9.-]`. -/
def isEmailDomainChar (c : Char) : Bool :=
  c.isAlpha || jsIsDigit c || c == '.' || c == '-'

/-- The class `[+]` (just a plus sign). -/
def isPlusChar (c : Char) : Bool := c == '+'

/-- The `tel:` link class `[\d\s\-\(\)\.]`. -/
def isTelChar (c : Char) : Bool :=
  jsIsDigit c || jsIsSpace c || c == '-' || c == '(' || c == ')' || c == '.'

/-- The negated class `[^.;!?\\n]` from the genre phrase patterns
(the source writes `\\n` inside a regex literal, so the class excludes a
backslash and the letter n, not a newline); under the `i` flag the letter
is excluded in both cases. -/
def isGenrePhraseChar (c : Char) : Bool :=
  !(c == '.' || c == ';' || c == '!' || c == '?' || c == '\\' || c.toLower == 'n')

/-! ## A backtracking regex engine with JavaScript priority order

`ends r prev cs` returns, in the JS backtracking engine's priority order,
the states `(last consumed char, remaining suffix)` reachable by matching
`r` against a prefix of `cs`, where `prev` is the character immediately
before `cs` in the subject string (for `\b`). The head of the list is the
match the JS engine commits to. -/

inductive RE where
  | lit : List Char → RE
  | litCI : List Char → RE
  | cls : (Char → Bool) → RE
  | star : (Char → Bool) → RE
  | rep : (Char → Bool) → Nat → Nat → RE
  | wordB : RE
  | opt : RE → RE
  | cat : RE → RE → RE
  | alt : RE → RE → RE

/-- Match a case-sensitive literal. -/
def litEnds : List Char → Option Char → List Char → Option (Option Char × List Char)
  | [], prev, cs => some (prev, cs)
  | _ :: _, _, [] => none
  | a :: as, _, c :: cs => if a == c then litEnds as (some c) cs else none

/-- Match a case-insensitive literal; the needle is given in lower case. -/
def litCIEnds : List Char → Option Char → List Char → Option (Option Char × List Char)
  | [], prev, cs => some (prev, cs)
  | _ :: _, _, [] => none
  | a :: as, _, c :: cs => if a == c.toLower then litCIEnds as (some c) cs else none

/-- Greedy `p*`: longest munch first, then shorter alternatives. -/
def starEnds (p : Char → Bool) : Option Char → List Char → List (Option Char × List Char)
  | prev, [] => [(prev, [])]
  | prev, c :: cs =>
    if p c then starEnds p (some c) cs ++ [(prev, c :: cs)]
    else [(prev, c :: cs)]

/-- Greedy `p{lo,hi}`: prefers consuming more characters. -/
def repEnds (p : Char → Bool) : Nat → Nat → Option Char → List Char →
    List (Option Char × List Char)
  | lo, 0, prev, cs => if lo == 0 then [(prev, cs)] else []
  | lo, _ + 1, prev, [] => if lo == 0 then [(prev, [])] else []
  | lo, hi + 1, prev, c :: cs =>
    (if p c then repEnds p (lo - 1) hi (some c) cs else []) ++
    (if lo == 0 then [(prev, c :: cs)] else [])

/-- Does a `\b` word boundary hold between `prev` and the head of `cs`? -/
def boundaryHolds (prev : Option Char) (cs : List Char) : Bool :=
  let pw := match prev with | some c => jsIsWordChar c | none => false
  let nw := match cs with | c :: _ => jsIsWordChar c | [] => false
  pw != nw

/-- All match end states of `r`, in JS backtracking priority order. -/
def ends : RE → Option Char → List Char → List (Option Char × List Char)
  | .lit s, prev, cs => (litEnds s prev cs).toList
  | .litCI s, prev, cs => (litCIEnds s prev cs).toList
  | .cls _, _, [] => []
  | .cls p, _, c :: cs => if p c then [(some c, cs)] else []
  | .star p, prev, cs => starEnds p prev cs
  | .rep p lo hi, prev, cs => repEnds p lo hi prev cs
  | .wordB, prev, cs => if boundaryHolds prev cs then [(prev, cs)] else []
  | .opt r, prev, cs => ends r prev cs ++ [(prev, cs)]
  | .cat r1 r2, prev, cs => (ends r1 prev cs).flatMap (fun pc => ends r2 pc.1 pc.2)
  | .alt r1 r2, prev, cs => ends r1 prev cs ++ ends r2 prev cs

/-- Greedy `p+`, as the JS engine treats it: one forced char then greedy star. -/
def rePlus (p : Char → Bool) : RE := .cat (.cls p) (.star p)

/-- Greedy `p{n,}`. -/
def repAtLeast (p : Char → Bool) (n : Nat) : RE := .cat (.rep p n n) (.star p)

/-- Ordered alternation of a non-empty list of alternatives
(an empty list yields an unmatchable pattern). -/
def reAlts : List RE → RE
  | [] => .rep (fun _ => false) 1 1
  | [r] => r
  | r :: rs => .alt r (reAlts rs)

/-- Length of the match the JS engine commits to at this position, if any. -/
def matchLenAt (r : RE) (prev : Option Char) (cs : List Char) : Option Nat :=
  match ends r prev cs with
  | [] => none
  | (_, rest) :: _ => some (cs.length - rest.length)

/-- The scan loop of `String.prototype.match` with the `g` flag, with an
explicit fuel so the recursion is structural: at each position take the
leftmost match and continue after it, else advance one character. Every
step consumes at least one character, so fuel equal to the subject length
suffices. -/
def gMatchGo (r : RE) : Nat → Option Char → List Char → List (List Char)
  | 0, _, _ => []
  | _ + 1, _, [] => []
  | fuel + 1, prev, c :: cs' =>
    match matchLenAt r prev (c :: cs') with
    | some (n + 1) =>
      ((c :: cs').take (n + 1)) ::
        gMatchGo r fuel (((c :: cs').take (n + 1)).getLast?) ((c :: cs').drop (n + 1))
    | _ => gMatchGo r fuel (some c) cs'

/-- `String.prototype.match` with the `g` flag (an empty match, which none
of the embedded patterns can produce, would advance one position). -/
def gMatchList (r : RE) (prev : Option Char) (cs : List Char) : List (List Char) :=
  gMatchGo r cs.length prev cs

/-- `RegExp.prototype.test`: is there a match anywhere in the subject? -/
def reTest (r : RE) : Option Char → List Char → Bool
  | prev, [] => (matchLenAt r prev []).isSome
  | prev, c :: cs => (matchLenAt r prev (c :: cs)).isSome || reTest r (some c) cs

/-! ## List/string helpers shared by the extractors -/

/-- JS `Set` insertion: append if not already present (JS sets iterate in
insertion order). -/
def insertNew {α} [DecidableEq α] (l : List α) (a : α) : List α :=
  if a ∈ l then l else l ++ [a]

/-- Fold a per-item candidate function over a worklist, inserting each
produced value into a JS-set-like accumulator. This is the shape shared by
all four extractors' collection loops. -/
def insertsOf {β α} [DecidableEq α] (f : β → Option α) (items : List β)
    (acc : List α) : List α :=
  items.foldl (fun a b => match f b with | some v => insertNew a v | none => a) acc

/-- Does `needle` occur as a contiguous substring of `hay`
(JS `String.prototype.includes`)? -/
def containsSub (hay needle : List Char) : Bool :=
  match hay with
  | [] => needle.isEmpty
  | _ :: t => (litEnds needle none hay).isSome || containsSub t needle

/-- Lower-case a character list (JS `toLowerCase` on the ASCII strings that
occur here). -/
def lowerChars (l : List Char) : List Char := l.map Char.toLower

/-- JS `String.prototype.trim` (the matched substrings never carry
surrounding whitespace, but the source calls it). -/
def trimJs (l : List Char) : List Char :=
  ((l.dropWhile jsIsSpace).reverse.dropWhile jsIsSpace).reverse

/-- Remove the first case-insensitive occurrence of `needle` (JS
`replace(/needle/i, '')`); the needle is given in lower case. -/
def removeFirstCI (needle : List Char) (hay : List Char) : List Char :=
  match hay with
  | [] => []
  | c :: t =>
    match litCIEnds needle none hay with
    | some (_, rest) => rest
    | none => c :: removeFirstCI needle t

/-- Maximal runs of ASCII digits occurring in a character list, in order. -/
def digitRunsAux (cur : List Char) : List Char → List (List Char)
  | [] => if cur.isEmpty then [] else [cur.reverse]
  | c :: cs =>
    if jsIsDigit c then digitRunsAux (c :: cur) cs
    else (if cur.isEmpty then [] else [cur.reverse]) ++ digitRunsAux [] cs

/-- Maximal digit runs of a character list. -/
def digitRuns (cs : List Char) : List (List Char) := digitRunsAux [] cs

/-- Split a digit run the way `/\d{1,5}/g` does: greedy chunks of five,
with a shorter final chunk. -/
def chunksOf5 : List Char → List (List Char)
  | [] => []
  | a :: b :: c :: d :: e :: t => [a, b, c, d, e] :: chunksOf5 t
  | l => [l]

/-- `parseInt` on a non-empty all-digit string. -/
def digitsToNat (ds : List Char) : Nat :=
  ds.foldl (fun n c => n * 10 + (c.toNat - 48)) 0

/-- The numbers `/\d{1,5}/g` followed by `parseInt` extracts from a matched
substring (`match.match(/\d{1,5}/g)` in `extractCapacity`). -/
def numsIn (m : List Char) : List Nat :=
  ((digitRuns m).flatMap chunksOf5).map digitsToNat

/-! ## extractEmail (scripts/venue-scraper.js) -/

/-- Pattern 1: `([a-zA-Z0-9._%+-]+@[a-zA-Z0-9.-]+\.[a-zA-Z]{2,})`, flags `g`. -/
def emailPattern1 : RE :=
  .cat (rePlus isEmailLocalChar) (.cat (.lit ['@'])
    (.cat (rePlus isEmailDomainChar) (.cat (.lit ['.']) (repAtLeast Char.isAlpha 2))))

/-- Pattern 2: `(?:booking|info|contact|events|music)@[a-zA-Z0-9.-]+\.[a-zA-Z]{2,}`,
flags `gi`. -/
def emailPattern2 : RE :=
  .cat (reAlts [.litCI "booking".data, .litCI "info".data, .litCI "contact".data,
    .litCI "events".data, .litCI "music".data])
    (.cat (.lit ['@'])
      (.cat (rePlus isEmailDomainChar) (.cat (.lit ['.']) (repAtLeast Char.isAlpha 2))))

/-- Pattern 3: `mailto:([a-zA-Z0-9._%+-]+@[a-zA-Z0-9.-]+\.[a-zA-Z]{2,})`, flags `gi`. -/
def emailPattern3 : RE :=
  .cat (.litCI "mailto:".data) emailPattern1

/-- The three email patterns, in source order. -/
def emailPatterns : List RE := [emailPattern1, emailPattern2, emailPattern3]

/-- The per-match body of `extractEmail`'s collection loop: strip a
`mailto:` prefix, trim, and keep the lower-cased candidate unless it lacks
an `@` or mentions `noreply`/`example` (those two checks run on the
pre-lower-cased text, as in the source). -/
def emailCandidate (m : List Char) : Option String :=
  let email := trimJs (removeFirstCI "mailto:".data m)
  if containsSub email ['@'] && !containsSub email "noreply".data &&
      !containsSub email "example".data then
    some (String.mk (lowerChars email))
  else
    none

/-- The deduplicated candidate list (`foundEmails` as a JS `Set`, iterated
in insertion order), ranging over the three patterns' global matches. -/
def emailCandidatesOf (cs : List Char) : List String :=
  insertsOf emailCandidate (emailPatterns.flatMap (fun p => gMatchList p none cs)) []

/-- `/^(booking|info|contact|events|music)@/.test(email)` on an
already-lower-cased candidate. -/
def isRoleEmail (e : String) : Bool :=
  ["booking@", "info@", "contact@", "events@", "music@"].any
    (fun w => (litEnds w.data none e.data).isSome)

/-- `extractEmail(content, url)`: collect candidates, prefer role-prefixed
ones, otherwise return the first candidate (`emails[0] || null`). -/
def extractEmail (content : String) : Option String :=
  let emails := emailCandidatesOf content.data
  match emails.filter isRoleEmail with
  | p :: _ => some p
  | [] =>
    match emails with
    | [] => none
    | e :: _ => if e = "" then none else some e

/-! ## extractPhone (scripts/venue-scraper.js) -/

/-- The keyword alternation `(?:phone|tel|call|contact)`. -/
def phoneKeywordsRE : RE :=
  reAlts [.litCI "phone".data, .litCI "tel".data, .litCI "call".data, .litCI "contact".data]

/-- `\(\d{3}\)\s*\d{3}[-.\s]*\d{4}`. -/
def parenPhoneRE : RE :=
  .cat (.lit ['(']) (.cat (.rep jsIsDigit 3 3) (.cat (.lit [')'])
    (.cat (.star jsIsSpace) (.cat (.rep jsIsDigit 3 3)
      (.cat (.star isDashDotSpace) (.rep jsIsDigit 4 4))))))

/-- `\d{3}[-.\s]*\d{3}[-.\s]*\d{4}`. -/
def plainPhoneRE : RE :=
  .cat (.rep jsIsDigit 3 3) (.cat (.star isDashDotSpace)
    (.cat (.rep jsIsDigit 3 3) (.cat (.star isDashDotSpace) (.rep jsIsDigit 4 4))))

/-- The six phone patterns, in source order. -/
def phonePatterns : List RE :=
  [ .cat phoneKeywordsRE (.cat (.star isColonSpace) parenPhoneRE),
    .cat phoneKeywordsRE (.cat (.star isColonSpace) plainPhoneRE),
    .cat .wordB (.cat parenPhoneRE .wordB),
    .cat .wordB (.cat plainPhoneRE .wordB),
    .cat (.litCI "tel:".data) (.cat (.opt (.cls isPlusChar)) (rePlus isTelChar)),
    .cat .wordB (.cat (.lit ['+', '1'])
      (.cat (.star isDashDotSpace) (.cat plainPhoneRE .wordB))) ]

/-- `(XXX) XXX-XXXX` from a ten-digit list (`digits.slice(0,3)` etc.). -/
def formatPhone (ds : List Char) : String :=
  String.mk ('(' :: ds.take 3 ++ [')', ' '] ++ (ds.drop 3).take 3 ++ ['-'] ++ ds.drop 6)

/-- The per-match body of `extractPhone`'s collection loop. The source's
replace chain (`(?:phone|tel|call|contact)[:\s]*`, `tel:`, the
`[^\d\+\(\)\-\.\s]` sweep, `\D`) removes only non-digit characters, so the
validation and formatting depend only on the digit subsequence of the match:
keep a 10-digit sequence, or an 11-digit sequence starting with 1
(dropping the 1), formatted as `(XXX) XXX-XXXX`. -/
def phoneCandidate (m : List Char) : Option String :=
  let digits := m.filter jsIsDigit
  if digits.length == 10 then some (formatPhone digits)
  else if digits.length == 11 && digits.head? == some '1' then
    some (formatPhone (digits.drop 1))
  else none

/-- `extractPhone(content, url)`: first formatted candidate or null. -/
def extractPhone (content : String) : Option String :=
  let phones :=
    insertsOf phoneCandidate (phonePatterns.flatMap (fun p => gMatchList p none content.data)) []
  phones.head?

/-! ## extractCapacity (scripts/venue-scraper.js) -/

/-- `seats?`-style optional plural. -/
def pluralCI (w : String) : RE := .cat (.litCI w.data) (.opt (.litCI ['s']))

/-- The seven capacity patterns, in source order. -/
def capacityPatterns : List RE :=
  [ .cat (reAlts [.litCI "capacity".data, .litCI "seating".data, pluralCI "seat",
      pluralCI "hold"]) (.cat (.star isColonSpace) (.rep jsIsDigit 1 5)),
    .cat (.rep jsIsDigit 1 5) (.cat (.star isColonSpace)
      (reAlts [.litCI "capacity".data, .litCI "person".data, .litCI "people".data,
        pluralCI "guest", .litCI "seat".data, .litCI "seating".data])),
    .cat (reAlts [pluralCI "accommodate", pluralCI "fit", pluralCI "hold"])
      (.cat (.star isColonSpace)
        (.cat (.opt (.cat (.litCI "up".data) (.cat (.star jsIsSpace)
          (.cat (.litCI "to".data) (.star jsIsSpace)))))
          (.rep jsIsDigit 1 5))),
    .cat (reAlts [.litCI "maximum".data, .litCI "max".data])
      (.cat (.star isColonSpace)
        (.cat (reAlts [.litCI "capacity".data, .litCI "occupancy".data, .litCI "seating".data])
          (.cat (.star isColonSpace) (.rep jsIsDigit 1 5)))),
    .cat (.litCI "standing".data) (.cat (.star isColonSpace) (.rep jsIsDigit 1 5)),
    .cat (reAlts [.litCI "concert".data, .litCI "show".data, .litCI "event".data])
      (.cat (.star isColonSpace) (.cat (.litCI "capacity".data)
        (.cat (.star isColonSpace) (.rep jsIsDigit 1 5)))),
    .cat (reAlts [.litCI "occupancy".data, .litCI "maximum".data])
      (.cat (.star isColonSpace) (.rep jsIsDigit 1 5)) ]

/-- All numbers extracted from the capacity patterns' matches, in the order
the collection loop sees them. -/
def capacityNums (cs : List Char) : List Nat :=
  (capacityPatterns.flatMap (fun p => gMatchList p none cs)).flatMap numsIn

/-- The range filter applied as candidates are collected. -/
def capInRange (n : Nat) : Prop := 50 ≤ n ∧ n ≤ 100000

instance (n : Nat) : Decidable (capInRange n) := by
  unfold capInRange
  infer_instance

/-- The year / four-digit filter applied after sorting (`reasonableCapacities`). -/
def capReasonable (n : Nat) : Prop :=
  ¬(2020 ≤ n ∧ n ≤ 2030) ∧ ¬((Nat.repr n).length = 4 ∧ 3000 < n)

instance (n : Nat) : Decidable (capReasonable n) := by
  unfold capReasonable
  infer_instance

/-- `extractCapacity(content, url)`: collect the in-range numbers into a
set, sort descending, drop year-like and large four-digit values, return
the first (largest) survivor. -/
def extractCapacity (content : String) : Option Nat :=
  let found := insertsOf (fun n => if capInRange n then some n else none)
    (capacityNums content.data) []
  if found.isEmpty then none
  else
    let capacities := List.insertionSort (fun a b : Nat => b ≤ a) found
    let reasonable := capacities.filter (fun cap => decide (capReasonable cap))
    reasonable.head?

/-! ## extractGenres (scripts/venue-scraper.js) -/

/-- The fixed genre vocabulary, in source order. The source escapes regex
metacharacters before building each `\b…\b` pattern, but no vocabulary
entry contains one, so the escaping is the identity here. -/
def genreKeywords : List String :=
  [ "rock", "pop", "jazz", "blues", "country", "folk", "indie", "alternative",
    "metal", "punk", "electronic", "hip hop", "rap", "reggae", "funk", "soul",
    "r&b", "classical", "acoustic", "bluegrass", "americana", "gospel", "christian",
    "hard rock", "soft rock", "classic rock", "indie rock", "alt rock",
    "death metal", "black metal", "heavy metal", "thrash metal",
    "house music", "techno", "dubstep", "edm", "dance music",
    "old time", "oldtime", "traditional", "roots music", "world music",
    "singer songwriter", "singer-songwriter",
    "live music", "all genres", "variety", "eclectic", "diverse",
    "touring acts", "local bands", "original music", "cover bands" ]

/-- `new RegExp('\\b' + genre + '\\b', 'gi').test(lowerContent)`. -/
def genreKeywordTest (lower : List Char) (g : String) : Bool :=
  reTest (.cat .wordB (.cat (.litCI g.data) .wordB)) none lower

/-- The four genre phrase patterns
(`music`/`genres?`/`style[s]?`/`featuring` followed by `[:\s]*` and up to
100 phrase characters), in source order. -/
def genrePhrasePatterns : List RE :=
  [ .cat (.litCI "music".data) (.cat (.star isColonSpace) (.rep isGenrePhraseChar 1 100)),
    .cat (.litCI "genre".data) (.cat (.opt (.litCI ['s']))
      (.cat (.star isColonSpace) (.rep isGenrePhraseChar 1 100))),
    .cat (.litCI "style".data) (.cat (.opt (.litCI ['s']))
      (.cat (.star isColonSpace) (.rep isGenrePhraseChar 1 100))),
    .cat (.litCI "featuring".data) (.cat (.star isColonSpace) (.rep isGenrePhraseChar 1 100)) ]

/-- The phrase-pattern matches of the original (non-lower-cased) content. -/
def genrePhraseMatches (cs : List Char) : List (List Char) :=
  genrePhrasePatterns.flatMap (fun p => gMatchList p none cs)

/-- Split at every space character (JS `split(' ')`). -/
def splitOnSpace : List Char → List (List Char)
  | [] => [[]]
  | c :: cs =>
    if c == ' ' then [] :: splitOnSpace cs
    else
      match splitOnSpace cs with
      | w :: ws => (c :: w) :: ws
      | [] => [[c]]

/-- Title-case a word: first char upper, rest lower. -/
def titleWord : List Char → List Char
  | [] => []
  | c :: cs => c.toUpper :: lowerChars cs

/-- `genre.split(' ').map(w => w.charAt(0).toUpperCase() + w.slice(1).toLowerCase()).join(' ')`. -/
def toTitle (g : String) : String :=
  String.intercalate " " ((splitOnSpace g.data).map (fun w => String.mk (titleWord w)))

/-- `foundGenres` as a JS `Set` in insertion order: the keyword pass over
the lower-cased content, then the phrase pass (each phrase match
lower-cased and searched for each keyword with a plain `includes`). -/
def genresFound (cs : List Char) : List String :=
  let lower := lowerChars cs
  let fromKeywords :=
    insertsOf (fun g => if genreKeywordTest lower g then some (toTitle g) else none)
      genreKeywords []
  insertsOf
    (fun mg : List Char × String =>
      if containsSub (lowerChars mg.1) mg.2.data then some (toTitle mg.2) else none)
    ((genrePhraseMatches cs).flatMap (fun m => genreKeywords.map (fun g => (m, g))))
    fromKeywords

/-- JS default string comparison (UTF-16 code-unit lexicographic; all
strings involved are ASCII). -/
def lexLe : List Char → List Char → Bool
  | [], _ => true
  | _ :: _, [] => false
  | a :: as, b :: bs => if a.toNat == b.toNat then lexLe as bs else decide (a.toNat < b.toNat)

/-- The order `Array.prototype.sort()` uses on the genre strings. -/
def strLeB (a b : String) : Bool := lexLe a.data b.data

/-- `extractGenres(content, url)`: null if nothing matched, else the sorted,
deduplicated, 8-capped, `"; "`-joined list. -/
def extractGenres (content : String) : Option String :=
  let found := genresFound content.data
  if found.isEmpty then none
  else
    let genres := List.insertionSort (fun a b : String => strLeB a b = true) found
    let limitedGenres := genres.take 8
    some (String.intercalate "; " limitedGenres)

/-- Did vocabulary term `g` match the content in either of the two passes
(the `\b…\b` test on the lower-cased content, or a plain `includes` inside
some lower-cased phrase-pattern match)? -/
def genreMatched (cs : List Char) (g : String) : Bool :=
  genreKeywordTest (lowerChars cs) g ||
  (genrePhraseMatches cs).any (fun m => containsSub (lowerChars m) g.data)

/-- The `limitedGenres` list `extractGenres` joins: the sorted found set
truncated to eight entries. -/
def genresLimited (content : String) : List String :=
  (List.insertionSort (fun a b : String => strLeB a b = true) (genresFound content.data)).take 8

/-! ## Venue records and the enrichment merge (scrapeMissingInfo) -/

/-- A CSV cell that may hold the empty string, a non-empty string, or a
number written by an earlier in-memory update (JS values are untyped; the
capacity cell is assigned the number `extractCapacity` returned). -/
inductive Cell where
  | nullV : Cell
  | str : String → Cell
  | num : Nat → Cell
deriving DecidableEq

/-- JS truthiness of a cell (`''`, `null` and `0` are falsy). -/
def Cell.truthy : Cell → Bool
  | .nullV => false
  | .str s => s ≠ ""
  | .num n => n ≠ 0

/-- A master-collection venue record (columns of venues_master.csv). -/
structure Venue where
  name : String
  location : String
  address : String
  venue_type : String
  capacity : Cell
  contact_email : String
  contact_phone : String
  contact_name : String
  website : String
  typical_genres : String
deriving DecidableEq

/-- The result object `scrapeVenueInfo` resolves with
(`{ email, phone, capacity, genres }`, each possibly null). -/
structure ScrapeResult where
  email : Option String
  phone : Option String
  capacity : Option Nat
  genres : Option String

/-- `if (result.email && !venue.contact_email) { venue.contact_email =
result.email; updated = true; }` on the (record, updated) pair. -/
def applyEmailStep (s : Venue × Bool) (re : Option String) : Venue × Bool :=
  match re with
  | some e =>
    if e ≠ "" ∧ s.1.contact_email = "" then ({ s.1 with contact_email := e }, true) else s
  | none => s

/-- The analogous guarded assignment for `contact_phone`. -/
def applyPhoneStep (s : Venue × Bool) (rp : Option String) : Venue × Bool :=
  match rp with
  | some p =>
    if p ≠ "" ∧ s.1.contact_phone = "" then ({ s.1 with contact_phone := p }, true) else s
  | none => s

/-- The guarded assignment for `capacity` (the incoming value is the number
`extractCapacity` returned; `0` would be falsy in JS). -/
def applyCapacityStep (s : Venue × Bool) (rc : Option Nat) : Venue × Bool :=
  match rc with
  | some n =>
    if n ≠ 0 ∧ s.1.capacity.truthy = false then ({ s.1 with capacity := .num n }, true) else s
  | none => s

/-- The guarded assignment for `typical_genres`. -/
def applyGenresStep (s : Venue × Bool) (rg : Option String) : Venue × Bool :=
  match rg with
  | some g =>
    if g ≠ "" ∧ s.1.typical_genres = "" then ({ s.1 with typical_genres := g }, true) else s
  | none => s

/-- The merge block of `scrapeMissingInfo` (venue-scraper.js): the four
guarded assignments `if (result.f && !venue.f) venue.f = result.f` run in
source order, returning the updated record and the `updated` flag. -/
def applyScrapeResult (v : Venue) (r : ScrapeResult) : Venue × Bool :=
  applyGenresStep
    (applyCapacityStep (applyPhoneStep (applyEmailStep (v, false) r.email) r.phone) r.capacity)
    r.genres

/-! ## Record-store writes and backups (saveVenues, saveDiscoveredVenues,
add-approved-venues handler) -/

/-- The store files the save operations touch. -/
inductive StoreFile where
  | master : StoreFile
  | masterBackup : StoreFile
  | masterBackupBeforeAdditions : StoreFile
  | discovered : StoreFile
deriving DecidableEq

/-- A file-system effect issued by a save operation. -/
inductive FsOp where
  | copyFile : StoreFile → StoreFile → FsOp
  | writeFile : StoreFile → FsOp
deriving DecidableEq

/-- `saveVenues` (scripts/venue-scraper.js): `copyFileSync(CSV_PATH,
BACKUP_PATH)` then `writeFileSync(CSV_PATH, …)`; if the master file does
not exist the copy throws and the catch block skips the write. -/
def saveVenuesOps (masterExists : Bool) : List FsOp :=
  if masterExists then [.copyFile .master .masterBackup, .writeFile .master] else []

/-- `saveDiscoveredVenues` (scripts/venue-discovery.js): a bare
`writeFileSync(DISCOVERED_VENUES_PATH, …)` with no backup. -/
def saveDiscoveredVenuesOps : List FsOp := [.writeFile .discovered]

/-- The write phase of the add-approved-venues handler
(netlify/functions/add-approved-venues.js): copy the master file to
`venues_backup_before_additions.csv` if it exists, then overwrite it. -/
def addApprovedWriteOps (masterExists : Bool) : List FsOp :=
  (if masterExists then [.copyFile .master .masterBackupBeforeAdditions] else []) ++
  [.writeFile .master]

/-- Every write in the effect list is immediately preceded by a copy whose
source is the file being written (the backup-before-overwrite discipline). -/
def backupBeforeWrite (ops : List FsOp) : Bool :=
  (List.range ops.length).all (fun i =>
    match ops[i]? with
    | some (.writeFile f) =>
      match i, ops[i-1]? with
      | _ + 1, some (.copyFile src _) => src == f
      | _, _ => false
    | _ => true)

/-! ## The batch run's flush cadence (scrapeMissingInfo) -/

/-- Orchestrator state: successful-update count and the counts at which a
mid-run `saveVenues` happened. -/
structure RunState where
  count : Nat
  saves : List Nat
deriving DecidableEq

/-- Processing one venue, abstracted by whether its merge set `updated`:
on success increment the count and persist when it hits a multiple of 5. -/
def stepVenue (st : RunState) (updated : Bool) : RunState :=
  if updated then
    let c := st.count + 1
    if c % 5 == 0 then ⟨c, st.saves ++ [c]⟩ else ⟨c, st.saves⟩
  else st

/-- The working set sliced into batches of three (`batchSize = 3`),
with a shorter final batch. -/
def batchesOf3 : List Bool → List (List Bool)
  | [] => []
  | a :: b :: c :: t => [a, b, c] :: batchesOf3 t
  | l => [l]

/-- The whole run: fold the per-venue step over the batches in order. -/
def scrapeRunState (outcomes : List Bool) : RunState :=
  (batchesOf3 outcomes).foldl (fun st b => b.foldl stepVenue st) ⟨0, []⟩

/-- The run-end flush condition: `if (updatedCount > 0) saveVenues(venues)`. -/
def scrapeRunEndFlush (outcomes : List Bool) : Bool :=
  (scrapeRunState outcomes).count != 0

/-! ## Venue discovery and its de-duplication (venue-discovery.js) -/

/-- A discovered-venue record (columns of discovered_venues.csv). -/
structure DVenue where
  name : String
  location : String
  address : String
  venue_type : String
  website : String
  discovered_from : String
  discovery_date : String
  status : String
deriving DecidableEq

/-- Lower-case a string the way `toLowerCase()` does on these ASCII fields. -/
def jsLower (s : String) : String := String.mk (lowerChars s.data)

/-- The de-duplication key `v.name.toLowerCase() + v.location.toLowerCase()`. -/
def discoveryKey (v : DVenue) : String := jsLower v.name ++ jsLower v.location

/-- The `venues.forEach` accumulation loop of `discoverVenuesInCity`: add a
candidate when its key is unseen and the cap is not reached, recording the
key. -/
def addCandidates (keys : List String) (newV : List DVenue) (cands : List DVenue)
    (maxResults : Nat) : List DVenue :=
  match cands with
  | [] => newV
  | c :: rest =>
    if discoveryKey c ∉ keys ∧ newV.length < maxResults then
      addCandidates (discoveryKey c :: keys) (newV ++ [c]) rest maxResults
    else
      addCandidates keys newV rest maxResults

/-- The collection `discoverVenuesInCity` leaves on disk: the prior
discovered venues followed by the accepted new ones (seeded with the keys
of all prior records). `cands` abstracts the venue objects produced by the
search-result pages, in encounter order. -/
def discoverVenuesResult (discovered : List DVenue) (cands : List DVenue)
    (maxResults : Nat) : List DVenue :=
  discovered ++ addCandidates (discovered.map discoveryKey) [] cands maxResults

/-! ## Promotion of approved venues (netlify/functions/add-approved-venues.js) -/

/-- The conversion of an approved discovered venue into the master format
(`capacity: null`, empty contact fields). -/
def toMasterVenue (v : DVenue) : Venue :=
  { name := v.name, location := v.location, address := v.address,
    venue_type := v.venue_type, capacity := .nullV, contact_email := "",
    contact_phone := "", contact_name := "", website := v.website,
    typical_genres := "" }

/-- The master collection after the add-approved-venues handler runs:
filter the approved records, convert them, drop those whose lower-cased
name already occurs among the existing venues' lower-cased names, append. -/
def addApprovedVenues (existing : List Venue) (discovered : List DVenue) : List Venue :=
  let approvedVenues := discovered.filter (fun v => v.status == "approved")
  if approvedVenues.isEmpty then existing
  else
    let newVenues := approvedVenues.map toMasterVenue
    let existingNames := existing.map (fun v => jsLower v.name)
    let uniqueNewVenues := newVenues.filter (fun v => jsLower v.name ∉ existingNames)
    if uniqueNewVenues.isEmpty then existing else existing ++ uniqueNewVenues

/-- The case-insensitive identity pair of a master venue. -/
def idPair (v : Venue) : String × String := (jsLower v.name, jsLower v.location)

/-- The case-insensitive identity pair of a discovered venue. -/
def idPairD (v : DVenue) : String × String := (jsLower v.name, jsLower v.location)

/-! ## updateVenueStatus (netlify/functions/update-venue-status.js and
src/lib/discovered-venues.ts) -/

/-- A stored discovered-venue row as the status endpoint sees it: a CSV row
may lack the name or location column entirely (`undefined` in JS), which is
what makes the lookup throw. Columns not consulted by the operation are
omitted. -/
structure StoredVenue where
  name : Option String
  location : Option String
  status : Option String
deriving DecidableEq

/-- The `findIndex` scan: compare lower-cased names first (short-circuit:
the location of a record whose name does not match is never read); accessing
a missing field throws, modelled as `Except.error`. -/
def findVenueIdx (venues : List StoredVenue) (nm loc : String) : Except Unit (Option Nat) :=
  match venues with
  | [] => .ok none
  | v :: rest =>
    match v.name with
    | none => .error ()
    | some n =>
      if jsLower n = jsLower nm then
        match v.location with
        | none => .error ()
        | some l =>
          if jsLower l = jsLower loc then .ok (some 0)
          else
            match findVenueIdx rest nm loc with
            | .error e => .error e
            | .ok none => .ok none
            | .ok (some i) => .ok (some (i + 1))
      else
        match findVenueIdx rest nm loc with
        | .error e => .error e
        | .ok none => .ok none
        | .ok (some i) => .ok (some (i + 1))

/-- Overwrite the status of the record at index `i`. -/
def setStatusAt (venues : List StoredVenue) (i : Nat) (status : String) : List StoredVenue :=
  match venues.get? i with
  | some v => venues.set i { v with status := some status }
  | none => venues

/-- `updateVenueStatus(venueName, location, status)`: returns the success
flag and the collection left in the store. A failed lookup — no match, or a
malformed record reached during the scan (the catch block swallows the
`TypeError`) — returns false and leaves the store untouched. -/
def updateVenueStatus (venues : List StoredVenue) (nm loc status : String) :
    Bool × List StoredVenue :=
  match findVenueIdx venues nm loc with
  | .error _ => (false, venues)
  | .ok none => (false, venues)
  | .ok (some i) => (true, setStatusAt venues i status)

/-- A stored record the `findIndex` scan passes over without matching and
without throwing: its name is present and either mismatches, or matches
while its location is present and mismatches. -/
def venueSkips (v : StoredVenue) (nm loc : String) : Prop :=
  ∃ n, v.name = some n ∧
    (jsLower n ≠ jsLower nm ∨ ∃ l, v.location = some l ∧ jsLower l ≠ jsLower loc)

/-! ## Shared lemmas -/

theorem mem_insertNew {α} [DecidableEq α] {l : List α} {a x : α} :
    x ∈ insertNew l a ↔ x ∈ l ∨ x = a := by
  unfold insertNew
  by_cases h : a ∈ l
  · simp only [if_pos h]
    constructor
    · exact Or.inl
    · rintro (hx | rfl)
      · exact hx
      · exact h
  · simp [if_neg h]

theorem nodup_insertNew {α} [DecidableEq α] {l : List α} (a : α) (h : l.Nodup) :
    (insertNew l a).Nodup := by
  unfold insertNew
  by_cases ha : a ∈ l
  · rw [if_pos ha]
    exact h
  · rw [if_neg ha]
    simp [List.nodup_append, h, ha]

theorem mem_insertsOf {β α} [DecidableEq α] (f : β → Option α) (items : List β)
    (acc : List α) (x : α) :
    x ∈ insertsOf f items acc ↔ x ∈ acc ∨ ∃ b ∈ items, f b = some x := by
  induction items generalizing acc with
  | nil => simp [insertsOf]
  | cons b rest ih =>
    unfold insertsOf at ih ⊢
    simp only [List.foldl_cons]
    cases hb : f b with
    | none =>
      rw [ih]
      simp only [List.mem_cons]
      constructor
      · rintro (h | ⟨b', hb', hfb⟩)
        · exact Or.inl h
        · exact Or.inr ⟨b', Or.inr hb', hfb⟩
      · rintro (h | ⟨b', hb' | hb', hfb⟩)
        · exact Or.inl h
        · rw [hb'] at hfb
          rw [hb] at hfb
          cases hfb
        · exact Or.inr ⟨b', hb', hfb⟩
    | some v =>
      rw [ih]
      simp only [List.mem_cons, mem_insertNew]
      constructor
      · rintro ((h | rfl) | ⟨b', hb', hfb⟩)
        · exact Or.inl h
        · exact Or.inr ⟨b, Or.inl rfl, hb⟩
        · exact Or.inr ⟨b', Or.inr hb', hfb⟩
      · rintro (h | ⟨b', hb' | hb', hfb⟩)
        · exact Or.inl (Or.inl h)
        · rw [hb'] at hfb
          rw [hb] at hfb
          exact Or.inl (Or.inr (Option.some_injective _ hfb.symm))
        · exact Or.inr ⟨b', hb', hfb⟩

theorem nodup_insertsOf {β α} [DecidableEq α] (f : β → Option α) (items : List β)
    (acc : List α) (h : acc.Nodup) : (insertsOf f items acc).Nodup := by
  induction items generalizing acc with
  | nil => simpa [insertsOf]
  | cons b rest ih =>
    unfold insertsOf
    simp only [List.foldl_cons]
    cases hb : f b with
    | none => exact ih acc h
    | some v => exact ih _ (nodup_insertNew v h)

theorem charToNat_ofNat_valid (n : Nat) (h : n < 55296) : (Char.ofNat n).toNat = n := by
  have hv : n.isValidChar := Or.inl h
  simp [Char.ofNat, hv, Char.ofNatAux, Char.toNat, UInt32.toNat, BitVec.toNat_ofNatLt]

theorem charToLower_toNat (c : Char) :
    (c.toLower).toNat = if 65 ≤ c.toNat ∧ c.toNat ≤ 90 then c.toNat + 32 else c.toNat := by
  unfold Char.toLower
  by_cases h : c.toNat ≥ 65 ∧ c.toNat ≤ 90
  · rw [if_pos h, if_pos h, charToNat_ofNat_valid _ (by omega)]
  · rw [if_neg h, if_neg h]

theorem charToLower_not_upper (c : Char) :
    ¬(65 ≤ (c.toLower).toNat ∧ (c.toLower).toNat ≤ 90) := by
  have h1 := charToLower_toNat c
  by_cases hc : 65 ≤ c.toNat ∧ c.toNat ≤ 90
  · rw [if_pos hc] at h1
    omega
  · rw [if_neg hc] at h1
    omega

theorem charToLower_eq_self (c : Char) (h : ¬(65 ≤ c.toNat ∧ c.toNat ≤ 90)) :
    c.toLower = c := by
  unfold Char.toLower
  exact if_neg h

theorem charToLower_toLower (c : Char) : (c.toLower).toLower = c.toLower :=
  charToLower_eq_self _ (charToLower_not_upper c)

theorem lowerChars_lowerChars (l : List Char) : lowerChars (lowerChars l) = lowerChars l := by
  unfold lowerChars
  rw [List.map_map]
  apply List.map_congr_left
  intro c _
  exact charToLower_toLower c

theorem applyEmailStep_phone (s : Venue × Bool) (re : Option String) :
    (applyEmailStep s re).1.contact_phone = s.1.contact_phone := by
  cases re with
  | none => rfl
  | some e => by_cases h : e ≠ "" ∧ s.1.contact_email = "" <;> simp [applyEmailStep, h]

theorem applyEmailStep_capacity (s : Venue × Bool) (re : Option String) :
    (applyEmailStep s re).1.capacity = s.1.capacity := by
  cases re with
  | none => rfl
  | some e => by_cases h : e ≠ "" ∧ s.1.contact_email = "" <;> simp [applyEmailStep, h]

theorem applyEmailStep_genres (s : Venue × Bool) (re : Option String) :
    (applyEmailStep s re).1.typical_genres = s.1.typical_genres := by
  cases re with
  | none => rfl
  | some e => by_cases h : e ≠ "" ∧ s.1.contact_email = "" <;> simp [applyEmailStep, h]

theorem applyEmailStep_email_preserved (s : Venue × Bool) (re : Option String)
    (h : s.1.contact_email ≠ "") :
    (applyEmailStep s re).1.contact_email = s.1.contact_email := by
  cases re with
  | none => rfl
  | some e =>
    by_cases hc : e ≠ "" ∧ s.1.contact_email = ""
    · exact absurd hc.2 h
    · simp [applyEmailStep, hc]

theorem applyPhoneStep_email (s : Venue × Bool) (rp : Option String) :
    (applyPhoneStep s rp).1.contact_email = s.1.contact_email := by
  cases rp with
  | none => rfl
  | some p => by_cases h : p ≠ "" ∧ s.1.contact_phone = "" <;> simp [applyPhoneStep, h]

theorem applyPhoneStep_capacity (s : Venue × Bool) (rp : Option String) :
    (applyPhoneStep s rp).1.capacity = s.1.capacity := by
  cases rp with
  | none => rfl
  | some p => by_cases h : p ≠ "" ∧ s.1.contact_phone = "" <;> simp [applyPhoneStep, h]

theorem applyPhoneStep_genres (s : Venue × Bool) (rp : Option String) :
    (applyPhoneStep s rp).1.typical_genres = s.1.typical_genres := by
  cases rp with
  | none => rfl
  | some p => by_cases h : p ≠ "" ∧ s.1.contact_phone = "" <;> simp [applyPhoneStep, h]

theorem applyPhoneStep_phone_preserved (s : Venue × Bool) (rp : Option String)
    (h : s.1.contact_phone ≠ "") :
    (applyPhoneStep s rp).1.contact_phone = s.1.contact_phone := by
  cases rp with
  | none => rfl
  | some p =>
    by_cases hc : p ≠ "" ∧ s.1.contact_phone = ""
    · exact absurd hc.2 h
    · simp [applyPhoneStep, hc]

theorem applyCapacityStep_email (s : Venue × Bool) (rc : Option Nat) :
    (applyCapacityStep s rc).1.contact_email = s.1.contact_email := by
  cases rc with
  | none => rfl
  | some n => by_cases h : n ≠ 0 ∧ s.1.capacity.truthy = false <;> simp [applyCapacityStep, h]

theorem applyCapacityStep_phone (s : Venue × Bool) (rc : Option Nat) :
    (applyCapacityStep s rc).1.contact_phone = s.1.contact_phone := by
  cases rc with
  | none => rfl
  | some n => by_cases h : n ≠ 0 ∧ s.1.capacity.truthy = false <;> simp [applyCapacityStep, h]

theorem applyCapacityStep_genres (s : Venue × Bool) (rc : Option Nat) :
    (applyCapacityStep s rc).1.typical_genres = s.1.typical_genres := by
  cases rc with
  | none => rfl
  | some n => by_cases h : n ≠ 0 ∧ s.1.capacity.truthy = false <;> simp [applyCapacityStep, h]

theorem applyCapacityStep_capacity_preserved (s : Venue × Bool) (rc : Option Nat)
    (h : s.1.capacity.truthy = true) :
    (applyCapacityStep s rc).1.capacity = s.1.capacity := by
  cases rc with
  | none => rfl
  | some n =>
    by_cases hc : n ≠ 0 ∧ s.1.capacity.truthy = false
    · rw [h] at hc
      exact absurd hc.2 (by simp)
    · simp [applyCapacityStep, hc]

theorem applyGenresStep_email (s : Venue × Bool) (rg : Option String) :
    (applyGenresStep s rg).1.contact_email = s.1.contact_email := by
  cases rg with
  | none => rfl
  | some g => by_cases h : g ≠ "" ∧ s.1.typical_genres = "" <;> simp [applyGenresStep, h]

theorem applyGenresStep_phone (s : Venue × Bool) (rg : Option String) :
    (applyGenresStep s rg).1.contact_phone = s.1.contact_phone := by
  cases rg with
  | none => rfl
  | some g => by_cases h : g ≠ "" ∧ s.1.typical_genres = "" <;> simp [applyGenresStep, h]

theorem applyGenresStep_capacity (s : Venue × Bool) (rg : Option String) :
    (applyGenresStep s rg).1.capacity = s.1.capacity := by
  cases rg with
  | none => rfl
  | some g => by_cases h : g ≠ "" ∧ s.1.typical_genres = "" <;> simp [applyGenresStep, h]

theorem applyGenresStep_genres_preserved (s : Venue × Bool) (rg : Option String)
    (h : s.1.typical_genres ≠ "") :
    (applyGenresStep s rg).1.typical_genres = s.1.typical_genres := by
  cases rg with
  | none => rfl
  | some g =>
    by_cases hc : g ≠ "" ∧ s.1.typical_genres = ""
    · exact absurd hc.2 h
    · simp [applyGenresStep, hc]

/-- C1: applying an enricher result to a record never overwrites a
populated field: any of the four target fields that was non-empty (truthy)
before the merge keeps exactly its prior value. -/
theorem scrape_apply_preserves_nonempty (v : Venue) (r : ScrapeResult) :
    (v.contact_email ≠ "" → (applyScrapeResult v r).1.contact_email = v.contact_email) ∧
    (v.contact_phone ≠ "" → (applyScrapeResult v r).1.contact_phone = v.contact_phone) ∧
    (v.capacity.truthy = true → (applyScrapeResult v r).1.capacity = v.capacity) ∧
    (v.typical_genres ≠ "" → (applyScrapeResult v r).1.typical_genres = v.typical_genres) := by
  unfold applyScrapeResult
  refine ⟨fun h1 => ?_, fun h2 => ?_, fun h3 => ?_, fun h4 => ?_⟩
  · rw [applyGenresStep_email, applyCapacityStep_email, applyPhoneStep_email,
      applyEmailStep_email_preserved _ _ h1]
  · rw [applyGenresStep_phone, applyCapacityStep_phone,
      applyPhoneStep_phone_preserved _ _ (by rw [applyEmailStep_phone]; exact h2)]
    rw [applyEmailStep_phone]
  · rw [applyGenresStep_capacity,
      applyCapacityStep_capacity_preserved _ _
        (by rw [applyPhoneStep_capacity, applyEmailStep_capacity]; exact h3),
      applyPhoneStep_capacity, applyEmailStep_capacity]
  · rw [applyGenresStep_genres_preserved _ _
      (by rw [applyCapacityStep_genres, applyPhoneStep_genres, applyEmailStep_genres]; exact h4),
      applyCapacityStep_genres, applyPhoneStep_genres, applyEmailStep_genres]

/-- Witness for C1: on a record with all four target fields populated, the
merge changes none of them. -/
theorem scrape_apply_preserves_nonempty_witness :
    (applyScrapeResult
        ⟨"The Blue Note", "Raleigh", "", "Club", .str "300", "booking@bn.test",
          "(919) 555-0134", "", "http://x.test", "Jazz"⟩
        ⟨some "other@x.test", some "(111) 222-3333", some 500, some "Rock"⟩).1.contact_email =
      "booking@bn.test" ∧
    (applyScrapeResult
        ⟨"The Blue Note", "Raleigh", "", "Club", .str "300", "booking@bn.test",
          "(919) 555-0134", "", "http://x.test", "Jazz"⟩
        ⟨some "other@x.test", some "(111) 222-3333", some 500, some "Rock"⟩).1.contact_phone =
      "(919) 555-0134" ∧
    (applyScrapeResult
        ⟨"The Blue Note", "Raleigh", "", "Club", .str "300", "booking@bn.test",
          "(919) 555-0134", "", "http://x.test", "Jazz"⟩
        ⟨some "other@x.test", some "(111) 222-3333", some 500, some "Rock"⟩).1.capacity =
      .str "300" ∧
    (applyScrapeResult
        ⟨"The Blue Note", "Raleigh", "", "Club", .str "300", "booking@bn.test",
          "(919) 555-0134", "", "http://x.test", "Jazz"⟩
        ⟨some "other@x.test", some "(111) 222-3333", some 500, some "Rock"⟩).1.typical_genres =
      "Jazz" :=
  ⟨(scrape_apply_preserves_nonempty _ _).1 (by decide),
   (scrape_apply_preserves_nonempty _ _).2.1 (by decide),
   (scrape_apply_preserves_nonempty _ _).2.2.1 (by decide),
   (scrape_apply_preserves_nonempty _ _).2.2.2 (by decide)⟩

/-- C3 counterexample: `saveDiscoveredVenues` in venue-discovery.js writes
the discovered-venue store with no preceding backup copy. -/
theorem saveDiscovered_no_backup_counterexample :
    backupBeforeWrite saveDiscoveredVenuesOps = false ∧
    saveDiscoveredVenuesOps = [.writeFile .discovered] := by
  decide

/-- C3 amended: `saveVenues` and the add-approved-venues handler back the
master file up immediately before overwriting it (and skip the write /
backup respectively when there is no prior on-disk version), but
`saveDiscoveredVenues` overwrites the discovered-venue store without any
backup. -/
theorem backup_discipline_amended :
    backupBeforeWrite (saveVenuesOps true) = true ∧
    saveVenuesOps false = [] ∧
    backupBeforeWrite (addApprovedWriteOps true) = true ∧
    backupBeforeWrite saveDiscoveredVenuesOps = false := by
  decide

/-- C7 counterexample: after exactly five successful updates the code
flushes mid-run at count 5 and then flushes again at run end, although the
last flush point 5 is a multiple of 5 — the claimed "only if the last flush
point was not a multiple of 5" condition on the run-end persist is false. -/
theorem run_end_flush_counterexample :
    scrapeRunEndFlush [true, true, true, true, true] = true ∧
    (scrapeRunState [true, true, true, true, true]).count % 5 = 0 ∧
    (scrapeRunState [true, true, true, true, true]).saves = [5] := by
  decide

theorem stepVenue_false (st : RunState) : stepVenue st false = st := rfl

theorem stepVenue_true (st : RunState) :
    stepVenue st true =
      if ((st.count + 1) % 5 == 0) = true then ⟨st.count + 1, st.saves ++ [st.count + 1]⟩
      else ⟨st.count + 1, st.saves⟩ := rfl

theorem flatten_batchesOf3 (l : List Bool) : (batchesOf3 l).flatten = l := by
  induction l using batchesOf3.induct with
  | case1 => rfl
  | case2 a b c t ih => simp [batchesOf3, ih]
  | case3 l h1 h2 => simp [batchesOf3, h1, h2]

theorem scrapeRunState_eq_foldl (outcomes : List Bool) :
    scrapeRunState outcomes = outcomes.foldl stepVenue ⟨0, []⟩ := by
  unfold scrapeRunState
  rw [← List.foldl_flatten, flatten_batchesOf3]

theorem foldl_stepVenue_spec (l : List Bool) (c : Nat) (s : List Nat) :
    (l.foldl stepVenue ⟨c, s⟩).count = c + l.count true ∧
    (l.foldl stepVenue ⟨c, s⟩).saves =
      s ++ (List.range' (c + 1) (l.count true)).filter (fun m => m % 5 == 0) := by
  induction l generalizing c s with
  | nil => simp
  | cons b t ih =>
    cases b with
    | false =>
      rw [List.foldl_cons, stepVenue_false]
      obtain ⟨h1, h2⟩ := ih c s
      refine ⟨?_, ?_⟩
      · rw [h1]
        simp [List.count_cons]
      · rw [h2]
        simp [List.count_cons]
    | true =>
      rw [List.foldl_cons, stepVenue_true]
      by_cases h5 : ((c + 1) % 5 == 0) = true
      · rw [if_pos h5]
        obtain ⟨h1, h2⟩ := ih (c + 1) (s ++ [c + 1])
        refine ⟨?_, ?_⟩
        · rw [h1]
          simp [List.count_cons]
          omega
        · rw [h2]
          have hc : List.count true (true :: t) = List.count true t + 1 := by
            simp [List.count_cons]
          rw [hc, List.range'_succ, List.filter_cons]
          simp [h5]
      · rw [if_neg h5]
        obtain ⟨h1, h2⟩ := ih (c + 1) s
        refine ⟨?_, ?_⟩
        · rw [h1]
          simp [List.count_cons]
          omega
        · rw [h2]
          have hc : List.count true (true :: t) = List.count true t + 1 := by
            simp [List.count_cons]
          rw [hc, List.range'_succ, List.filter_cons]
          simp [h5]

/-- C7 amended: over any run, the store is persisted mid-run exactly at the
multiples of five of the successful-update count, and the run-end persist
happens exactly when at least one update occurred — including when the
count is a multiple of 5 (in which case the store is saved twice in
succession). -/
theorem run_flush_cadence_amended (outcomes : List Bool) :
    (scrapeRunState outcomes).count = outcomes.count true ∧
    (scrapeRunState outcomes).saves =
      (List.range' 1 (outcomes.count true)).filter (fun m => m % 5 == 0) ∧
    scrapeRunEndFlush outcomes = (outcomes.count true != 0) := by
  obtain ⟨h1, h2⟩ := foldl_stepVenue_spec outcomes 0 []
  rw [scrapeRunState_eq_foldl] at *
  refine ⟨by rw [h1]; omega, by rw [h2]; simp, ?_⟩
  unfold scrapeRunEndFlush
  rw [scrapeRunState_eq_foldl, h1]
  simp

/-- C5 counterexample: on the bare canonical string `(919) 555-0134` the
extractor does not return the string itself. -/
theorem extractPhone_not_idempotent_counterexample :
    extractPhone "(919) 555-0134" ≠ some "(919) 555-0134" := by
  decide

/-- C5 amended: the phone extractor is not idempotent on its own output.
With keyword context it produces the canonical form — `extractPhone` on
`phone: (919) 555-0134` returns `(919) 555-0134` — but running the
extractor on that bare canonical output returns null: the standalone
parenthesized pattern requires a word boundary before `(`, which fails at
the start of the string, and no other pattern applies to a bare
`(XXX) XXX-XXXX` string. A second canonical input shows the same. -/
theorem extractPhone_canonical_amended :
    extractPhone "phone: (919) 555-0134" = some "(919) 555-0134" ∧
    extractPhone "(919) 555-0134" = none ∧
    extractPhone "(123) 456-7890" = none := by
  decide

/-- C2 counterexample: `extractCapacity("occupancy 999999")` returns 99999,
not null — the pattern captures at most five digits, which land in range. -/
theorem extractCapacity_occupancy_counterexample :
    extractCapacity "occupancy 999999" = some 99999 := by
  decide

theorem mem_capFound (cs : List Char) (x : Nat) :
    x ∈ insertsOf (fun n => if capInRange n then some n else none) (capacityNums cs) [] ↔
      x ∈ capacityNums cs ∧ capInRange x := by
  rw [mem_insertsOf]
  simp only [List.not_mem_nil, false_or]
  constructor
  · rintro ⟨b, hb, hfb⟩
    by_cases h : capInRange b
    · rw [if_pos h] at hfb
      cases hfb
      exact ⟨hb, h⟩
    · rw [if_neg h] at hfb
      cases hfb
  · rintro ⟨hb, h⟩
    exact ⟨x, hb, by rw [if_pos h]⟩

theorem sorted_desc_insertionSort (l : List Nat) :
    List.Pairwise (fun a b : Nat => b ≤ a) (List.insertionSort (fun a b : Nat => b ≤ a) l) := by
  haveI : IsTotal Nat (fun a b : Nat => b ≤ a) := ⟨fun a b => Nat.le_total b a⟩
  haveI : IsTrans Nat (fun a b : Nat => b ≤ a) := ⟨fun a b c h1 h2 => Nat.le_trans h2 h1⟩
  exact List.sorted_insertionSort _ l

/-- C2 amended: the capacity extractor keeps only matched numbers in
[50, 100000] that are not in [2020, 2030] and not 4-digit values over 3000,
and returns the largest survivor (null if none); "capacity 2024" yields
null, "capacity 450" yields 450, but "occupancy 999999" yields 99999
(each pattern captures at most 5 digits, and 99999 is in range). -/
theorem extractCapacity_amended_spec :
    (∀ content : String,
      (extractCapacity content = none ↔
        ∀ n ∈ capacityNums content.data, ¬(capInRange n ∧ capReasonable n)) ∧
      (∀ c, extractCapacity content = some c →
        c ∈ capacityNums content.data ∧ capInRange c ∧ capReasonable c ∧
        ∀ d ∈ capacityNums content.data, capInRange d → capReasonable d → d ≤ c)) ∧
    extractCapacity "capacity 2024" = none ∧
    extractCapacity "capacity 450" = some 450 ∧
    extractCapacity "occupancy 999999" = some 99999 := by
  refine ⟨fun content => ?_, by decide, by decide, by decide⟩
  unfold extractCapacity
  dsimp only
  set found := insertsOf (fun n => if capInRange n then some n else none)
    (capacityNums content.data) [] with hfound
  have hmem : ∀ x, x ∈ found ↔ x ∈ capacityNums content.data ∧ capInRange x :=
    fun x => mem_capFound content.data x
  by_cases hfe : found.isEmpty
  · rw [if_pos hfe]
    have hnil : found = [] := List.isEmpty_iff.mp hfe
    constructor
    · constructor
      · intro _ n hn hcon
        have : n ∈ found := (hmem n).mpr ⟨hn, hcon.1⟩
        rw [hnil] at this
        exact List.not_mem_nil n this
      · intro _
        rfl
    · intro c hc
      cases hc
  · rw [if_neg hfe]
    set capacities := List.insertionSort (fun a b : Nat => b ≤ a) found with hcaps
    have hperm : capacities.Perm found := List.perm_insertionSort _ found
    have hsorted : List.Pairwise (fun a b : Nat => b ≤ a) capacities :=
      sorted_desc_insertionSort found
    set reasonable := capacities.filter (fun cap => decide (capReasonable cap)) with hreas
    have hmemr : ∀ x, x ∈ reasonable ↔
        (x ∈ capacityNums content.data ∧ capInRange x) ∧ capReasonable x := by
      intro x
      rw [hreas, List.mem_filter, hperm.mem_iff, hmem x]
      simp
    constructor
    · constructor
      · intro hnone n hn hcon
        have hr : reasonable = [] := by
          cases hr : reasonable with
          | nil => rfl
          | cons a t =>
            rw [hr] at hnone
            cases hnone
        have : n ∈ reasonable := (hmemr n).mpr ⟨⟨hn, hcon.1⟩, hcon.2⟩
        rw [hr] at this
        exact List.not_mem_nil n this
      · intro hall
        cases hr : reasonable with
        | nil => rfl
        | cons a t =>
          exfalso
          have ha : a ∈ reasonable := by rw [hr]; exact List.mem_cons_self a t
          have := (hmemr a).mp ha
          exact hall a this.1.1 ⟨this.1.2, this.2⟩
    · intro c hc
      cases hr : reasonable with
      | nil =>
        rw [hr] at hc
        cases hc
      | cons a t =>
        rw [hr] at hc
        have hac : a = c := by
          cases hc
          rfl
        subst hac
        have ha := (hmemr a).mp (by rw [hr]; exact List.mem_cons_self a t)
        refine ⟨ha.1.1, ha.1.2, ha.2, ?_⟩
        intro d hd hdr hdre
        have hdmem : d ∈ reasonable := (hmemr d).mpr ⟨⟨hd, hdr⟩, hdre⟩
        rw [hr] at hdmem
        rcases List.mem_cons.mp hdmem with rfl | hdt
        · exact Nat.le_refl d
        · have hsr : List.Pairwise (fun a b : Nat => b ≤ a) reasonable :=
            List.Pairwise.filter _ hsorted
          rw [hr] at hsr
          exact (List.pairwise_cons.mp hsr).1 d hdt

/-- C2 witness: the amended spec applied at "capacity 450". -/
theorem extractCapacity_amended_spec_witness :
    450 ∈ capacityNums "capacity 450".data ∧ capInRange 450 ∧ capReasonable 450 ∧
    ∀ d ∈ capacityNums "capacity 450".data, capInRange d → capReasonable d → d ≤ 450 :=
  (extractCapacity_amended_spec.1 "capacity 450").2 450 (by decide)

theorem head_filter_eq_find {α} (p : α → Bool) (l : List α) :
    (l.filter p).head? = l.find? p := by
  induction l with
  | nil => rfl
  | cons a t ih => by_cases h : p a <;> simp [List.filter_cons, List.find?, h, ih]

/-- C8: whenever any collected candidate is role-prefixed, `extractEmail`
returns the first such candidate (in collection order); in particular a
text containing both `random@site.com` and `booking@site.com` yields
`booking@site.com`. -/
theorem extractEmail_role_priority :
    (∀ content : String, (emailCandidatesOf content.data).any isRoleEmail = true →
      extractEmail content = (emailCandidatesOf content.data).find? isRoleEmail ∧
      ∃ e, extractEmail content = some e ∧ isRoleEmail e = true) ∧
    extractEmail "random@site.com booking@site.com" = some "booking@site.com" := by
  refine ⟨fun content hany => ?_, by decide⟩
  unfold extractEmail
  dsimp only
  rw [← head_filter_eq_find]
  cases hf : (emailCandidatesOf content.data).filter isRoleEmail with
  | nil =>
    exfalso
    obtain ⟨x, hx, hrx⟩ := List.any_eq_true.mp hany
    have : x ∈ (emailCandidatesOf content.data).filter isRoleEmail :=
      List.mem_filter.mpr ⟨hx, hrx⟩
    rw [hf] at this
    exact List.not_mem_nil x this
  | cons p t =>
    have hp : p ∈ (emailCandidatesOf content.data).filter isRoleEmail := by
      rw [hf]
      exact List.mem_cons_self p t
    refine ⟨rfl, p, rfl, (List.mem_filter.mp hp).2⟩

theorem contains_single_mem {hay : List Char} {a : Char}
    (h : containsSub hay [a] = true) : a ∈ hay := by
  induction hay with
  | nil =>
    unfold containsSub at h
    simp [List.isEmpty] at h
  | cons c t ih =>
    unfold containsSub at h
    rcases Bool.or_eq_true _ _ |>.mp h with h1 | h2
    · unfold litEnds at h1
      by_cases hac : a == c
      · have : a = c := by simpa using hac
        rw [this]
        exact List.mem_cons_self c t
      · rw [if_neg (by simpa using hac)] at h1
        cases h1
    · exact List.mem_cons_of_mem c (ih h2)

theorem emailCandidate_some {m : List Char} {e : String} (h : emailCandidate m = some e) :
    e = String.mk (lowerChars (trimJs (removeFirstCI "mailto:".data m))) ∧
    containsSub (trimJs (removeFirstCI "mailto:".data m)) ['@'] = true := by
  unfold emailCandidate at h
  by_cases hg : (containsSub (trimJs (removeFirstCI "mailto:".data m)) ['@'] &&
      !containsSub (trimJs (removeFirstCI "mailto:".data m)) "noreply".data &&
      !containsSub (trimJs (removeFirstCI "mailto:".data m)) "example".data) = true
  · rw [if_pos hg] at h
    cases h
    have := (Bool.and_eq_true _ _).mp hg
    have := (Bool.and_eq_true _ _).mp this.1
    exact ⟨rfl, this.1⟩
  · rw [if_neg hg] at h
    cases h

theorem extractEmail_some_mem {content e : String} (h : extractEmail content = some e) :
    e ∈ emailCandidatesOf content.data := by
  unfold extractEmail at h
  dsimp only at h
  cases hf : (emailCandidatesOf content.data).filter isRoleEmail with
  | cons p t =>
    rw [hf] at h
    have hpe : some p = some e := h
    injection hpe with hpe
    subst hpe
    have hp : p ∈ (emailCandidatesOf content.data).filter isRoleEmail := by
      rw [hf]
      exact List.mem_cons_self p t
    exact (List.mem_filter.mp hp).1
  | nil =>
    rw [hf] at h
    cases hc : emailCandidatesOf content.data with
    | nil =>
      rw [hc] at h
      exact absurd h (by simp)
    | cons x xs =>
      rw [hc] at h
      have h' : (if x = "" then none else some x) = some e := h
      by_cases hx : x = ""
      · rw [if_pos hx] at h'
        cases h'
      · rw [if_neg hx] at h'
        injection h' with h'
        subst h'
        exact List.mem_cons_self x xs

/-- C10: every non-null result of `extractEmail` is entirely lower-case
(lower-casing it again is the identity) and contains an `@`. -/
theorem extractEmail_lowercase_at :
    ∀ (content e : String), extractEmail content = some e →
      jsLower e = e ∧ '@' ∈ e.data := by
  intro content e h
  have hm := extractEmail_some_mem h
  unfold emailCandidatesOf at hm
  rw [mem_insertsOf] at hm
  rcases hm with hnil | ⟨m, _, hcand⟩
  · exact absurd hnil (List.not_mem_nil e)
  · obtain ⟨he, hat⟩ := emailCandidate_some hcand
    subst he
    constructor
    · unfold jsLower
      show String.mk (lowerChars (lowerChars (trimJs (removeFirstCI "mailto:".data m)))) = _
      rw [lowerChars_lowerChars]
    · show '@' ∈ lowerChars (trimJs (removeFirstCI "mailto:".data m))
      have hmem := contains_single_mem hat
      have : Char.toLower '@' ∈ lowerChars (trimJs (removeFirstCI "mailto:".data m)) :=
        List.mem_map_of_mem Char.toLower hmem
      simpa using this

/-- C10 witness: a mixed-case input yields a lower-cased address with `@`. -/
theorem extractEmail_lowercase_at_witness :
    jsLower "john@site.com" = "john@site.com" ∧ '@' ∈ "john@site.com".data :=
  extractEmail_lowercase_at "Contact JOHN@Site.COM" "john@site.com" (by decide)

/-- C8 witness: the role-priority theorem applied at a concrete text. -/
theorem extractEmail_role_priority_witness :
    extractEmail "write random@site.com or booking@site.com" =
      (emailCandidatesOf "write random@site.com or booking@site.com".data).find? isRoleEmail ∧
    ∃ e, extractEmail "write random@site.com or booking@site.com" = some e ∧
      isRoleEmail e = true :=
  extractEmail_role_priority.1 "write random@site.com or booking@site.com" (by decide)

theorem lexLe_total : ∀ as bs : List Char, lexLe as bs = true ∨ lexLe bs as = true := by
  intro as
  induction as with
  | nil => intro bs; left; rfl
  | cons a as' ih =>
    intro bs
    cases bs with
    | nil => right; rfl
    | cons b bs' =>
      simp only [lexLe]
      by_cases hab : a.toNat = b.toNat
      · rw [if_pos (by simpa using hab), if_pos (by simpa using hab.symm)]
        exact ih bs'
      · rw [if_neg (by simpa using hab), if_neg (by simpa using Ne.symm hab)]
        simp only [decide_eq_true_eq]
        omega

theorem lexLe_trans : ∀ as bs cs : List Char, lexLe as bs = true → lexLe bs cs = true →
    lexLe as cs = true := by
  intro as
  induction as with
  | nil => intro bs cs _ _; rfl
  | cons a as' ih =>
    intro bs cs h1 h2
    cases bs with
    | nil => simp [lexLe] at h1
    | cons b bs' =>
      cases cs with
      | nil => simp [lexLe] at h2
      | cons c cs' =>
        simp only [lexLe] at h1 h2 ⊢
        by_cases hab : a.toNat = b.toNat
        · rw [if_pos (by simpa using hab)] at h1
          by_cases hbc : b.toNat = c.toNat
          · rw [if_pos (by simpa using hbc)] at h2
            rw [if_pos (by simp [hab, hbc])]
            exact ih bs' cs' h1 h2
          · rw [if_neg (by simpa using hbc)] at h2
            simp only [decide_eq_true_eq] at h2
            have hac : ¬a.toNat = c.toNat := by omega
            rw [if_neg (by simpa using hac)]
            simp only [decide_eq_true_eq]
            omega
        · rw [if_neg (by simpa using hab)] at h1
          simp only [decide_eq_true_eq] at h1
          by_cases hbc : b.toNat = c.toNat
          · have hac : ¬a.toNat = c.toNat := by omega
            rw [if_neg (by simpa using hac)]
            simp only [decide_eq_true_eq]
            omega
          · rw [if_neg (by simpa using hbc)] at h2
            simp only [decide_eq_true_eq] at h2
            have hac : ¬a.toNat = c.toNat := by omega
            rw [if_neg (by simpa using hac)]
            simp only [decide_eq_true_eq]
            omega

theorem sorted_strings_insertionSort (l : List String) :
    List.Pairwise (fun a b : String => strLeB a b = true)
      (List.insertionSort (fun a b : String => strLeB a b = true) l) := by
  haveI : IsTotal String (fun a b : String => strLeB a b = true) :=
    ⟨fun a b => lexLe_total a.data b.data⟩
  haveI : IsTrans String (fun a b : String => strLeB a b = true) :=
    ⟨fun a b c h1 h2 => lexLe_trans a.data b.data c.data h1 h2⟩
  exact List.sorted_insertionSort _ l

theorem mem_genresFound (cs : List Char) (x : String) :
    x ∈ genresFound cs ↔
      ∃ g ∈ genreKeywords, genreMatched cs g = true ∧ x = toTitle g := by
  unfold genresFound
  dsimp only
  rw [mem_insertsOf, mem_insertsOf]
  simp only [List.not_mem_nil, false_or]
  constructor
  · rintro (⟨g, hg, hfg⟩ | ⟨pr, hpr, hfpr⟩)
    · by_cases ht : genreKeywordTest (lowerChars cs) g
      · rw [if_pos ht] at hfg
        injection hfg with hfg
        exact ⟨g, hg, by simp [genreMatched, ht], hfg.symm⟩
      · rw [if_neg ht] at hfg
        cases hfg
    · obtain ⟨m, hm, g, hg, rfl⟩ : ∃ m ∈ genrePhraseMatches cs, ∃ g ∈ genreKeywords,
          pr = (m, g) := by
        rcases List.mem_flatMap.mp hpr with ⟨m, hm, hpr'⟩
        rcases List.mem_map.mp hpr' with ⟨g, hg, rfl⟩
        exact ⟨m, hm, g, hg, rfl⟩
      by_cases hc : containsSub (lowerChars m) g.data
      · rw [if_pos hc] at hfpr
        injection hfpr with hfpr
        refine ⟨g, hg, ?_, hfpr.symm⟩
        simp only [genreMatched, Bool.or_eq_true, List.any_eq_true]
        exact Or.inr ⟨m, hm, hc⟩
      · rw [if_neg hc] at hfpr
        cases hfpr
  · rintro ⟨g, hg, hmat, rfl⟩
    simp only [genreMatched, Bool.or_eq_true, List.any_eq_true] at hmat
    rcases hmat with ht | ⟨m, hm, hc⟩
    · exact Or.inl ⟨g, hg, by rw [if_pos ht]⟩
    · refine Or.inr ⟨(m, g), ?_, by rw [if_pos hc]⟩
      exact List.mem_flatMap.mpr ⟨m, hm, List.mem_map.mpr ⟨g, hg, rfl⟩⟩

theorem genresFound_nil_iff (cs : List Char) :
    genresFound cs = [] ↔ ∀ g ∈ genreKeywords, genreMatched cs g = false := by
  constructor
  · intro hnil g hg
    by_contra hne
    have hmat : genreMatched cs g = true := by
      cases h : genreMatched cs g
      · exact absurd h hne
      · rfl
    have : toTitle g ∈ genresFound cs := (mem_genresFound cs _).mpr ⟨g, hg, hmat, rfl⟩
    rw [hnil] at this
    exact List.not_mem_nil _ this
  · intro hall
    cases h : genresFound cs with
    | nil => rfl
    | cons a t =>
      exfalso
      have ha : a ∈ genresFound cs := by rw [h]; exact List.mem_cons_self a t
      obtain ⟨g, hg, hmat, _⟩ := (mem_genresFound cs a).mp ha
      rw [hall g hg] at hmat
      cases hmat

theorem genresFound_nodup (cs : List Char) : (genresFound cs).Nodup := by
  unfold genresFound
  exact nodup_insertsOf _ _ _ (nodup_insertsOf _ _ [] List.nodup_nil)

/-- C9: `extractGenres` returns null exactly when no vocabulary term
matches; otherwise it returns the title-cased matched terms, deduplicated,
sorted, truncated to at most eight, joined with "; " — and a text naming
ten distinct vocabulary genres yields exactly eight entries in order. -/
theorem extractGenres_spec :
    (∀ content : String,
      (extractGenres content = none ↔
        ∀ g ∈ genreKeywords, genreMatched content.data g = false) ∧
      (∀ s, extractGenres content = some s →
        s = String.intercalate "; " (genresLimited content) ∧
        genresLimited content ≠ [] ∧
        (genresLimited content).length ≤ 8 ∧
        List.Pairwise (fun a b => strLeB a b = true) (genresLimited content) ∧
        (genresLimited content).Nodup ∧
        ∀ x ∈ genresLimited content, ∃ g ∈ genreKeywords,
          genreMatched content.data g = true ∧ x = toTitle g)) ∧
    extractGenres "rock pop jazz blues country folk indie metal punk reggae" =
      some "Blues; Country; Folk; Indie; Jazz; Metal; Pop; Punk" ∧
    (genresFound "rock pop jazz blues country folk indie metal punk reggae".data).length =
      10 := by
  refine ⟨fun content => ⟨?_, ?_⟩, by decide, by decide⟩
  · unfold extractGenres
    dsimp only
    by_cases hfe : (genresFound content.data).isEmpty
    · rw [if_pos hfe]
      constructor
      · intro _
        exact (genresFound_nil_iff content.data).mp (List.isEmpty_iff.mp hfe)
      · intro _
        rfl
    · rw [if_neg hfe]
      constructor
      · intro h
        cases h
      · intro hall
        exfalso
        exact hfe (List.isEmpty_iff.mpr ((genresFound_nil_iff content.data).mpr hall))
  · intro s hs
    unfold extractGenres at hs
    dsimp only at hs
    by_cases hfe : (genresFound content.data).isEmpty
    · rw [if_pos hfe] at hs
      cases hs
    · rw [if_neg hfe] at hs
      injection hs with hs
      have hlim : genresLimited content =
          (List.insertionSort (fun a b : String => strLeB a b = true)
            (genresFound content.data)).take 8 := rfl
      have hperm : (List.insertionSort (fun a b : String => strLeB a b = true)
          (genresFound content.data)).Perm (genresFound content.data) :=
        List.perm_insertionSort _ _
      refine ⟨hs.symm, ?_, ?_, ?_, ?_, ?_⟩
      · rw [hlim]
        intro hnil
        rcases List.take_eq_nil_iff.mp hnil with h8 | hsortnil
        · cases h8
        · have h0 : List.Perm [] (genresFound content.data) := hsortnil ▸ hperm
          exact hfe (List.isEmpty_iff.mpr h0.symm.eq_nil)
      · rw [hlim]
        exact List.length_take_le 8 _
      · rw [hlim]
        exact List.Pairwise.sublist (List.take_sublist 8 _)
          (sorted_strings_insertionSort (genresFound content.data))
      · rw [hlim]
        exact List.Nodup.sublist (List.take_sublist 8 _)
          (hperm.nodup_iff.mpr (genresFound_nodup content.data))
      · rw [hlim]
        intro x hx
        have hxs : x ∈ genresFound content.data :=
          hperm.mem_iff.mp (List.mem_of_mem_take hx)
        exact (mem_genresFound content.data x).mp hxs

/-- C9 witness: the spec applied at a text naming ten distinct genres. -/
theorem extractGenres_spec_witness :
    "Blues; Country; Folk; Indie; Jazz; Metal; Pop; Punk" =
      String.intercalate "; "
        (genresLimited "rock pop jazz blues country folk indie metal punk reggae") ∧
    genresLimited "rock pop jazz blues country folk indie metal punk reggae" ≠ [] ∧
    (genresLimited "rock pop jazz blues country folk indie metal punk reggae").length ≤ 8 ∧
    List.Pairwise (fun a b => strLeB a b = true)
      (genresLimited "rock pop jazz blues country folk indie metal punk reggae") ∧
    (genresLimited "rock pop jazz blues country folk indie metal punk reggae").Nodup ∧
    ∀ x ∈ genresLimited "rock pop jazz blues country folk indie metal punk reggae",
      ∃ g ∈ genreKeywords,
        genreMatched "rock pop jazz blues country folk indie metal punk reggae".data g =
          true ∧ x = toTitle g :=
  (extractGenres_spec.1 "rock pop jazz blues country folk indie metal punk reggae").2
    "Blues; Country; Folk; Indie; Jazz; Metal; Pop; Punk" (by decide)

/-- C4 counterexample: promoting two identical approved venues into an
empty master collection keeps both (the handler only de-duplicates against
the pre-existing names), so the identity pair is not unique afterwards; and
an approved venue whose name matches an existing record in a different
location is dropped, showing the promotion key is the lower-cased name
alone, not the (name, location) pair. -/
theorem promotion_dup_pair_counterexample :
    ¬ List.Pairwise (fun a b => idPair a ≠ idPair b)
      (addApprovedVenues []
        [⟨"The Cave", "Chapel Hill", "", "", "", "", "", "approved"⟩,
         ⟨"The Cave", "Chapel Hill", "", "", "", "", "", "approved"⟩]) ∧
    addApprovedVenues
        [toMasterVenue ⟨"Blue Note", "Raleigh", "", "", "", "", "", "approved"⟩]
        [⟨"Blue Note", "Durham", "", "", "", "", "", "approved"⟩] =
      [toMasterVenue ⟨"Blue Note", "Raleigh", "", "", "", "", "", "approved"⟩] := by
  decide

theorem addCandidates_spec :
    ∀ (cands : List DVenue) (keys : List String) (newV : List DVenue) (maxR : Nat),
    ∃ extra, addCandidates keys newV cands maxR = newV ++ extra ∧
      (∀ x ∈ extra, discoveryKey x ∉ keys) ∧
      (extra.map discoveryKey).Nodup := by
  intro cands
  induction cands with
  | nil =>
    intro keys newV maxR
    exact ⟨[], by simp [addCandidates], by simp, by simp⟩
  | cons c rest ih =>
    intro keys newV maxR
    unfold addCandidates
    by_cases hc : discoveryKey c ∉ keys ∧ newV.length < maxR
    · rw [if_pos hc]
      obtain ⟨extra, heq, hnot, hnd⟩ := ih (discoveryKey c :: keys) (newV ++ [c]) maxR
      refine ⟨c :: extra, ?_, ?_, ?_⟩
      · rw [heq]
        simp
      · intro x hx
        rcases List.mem_cons.mp hx with rfl | hx'
        · exact hc.1
        · intro hk
          exact hnot x hx' (List.mem_cons_of_mem _ hk)
      · simp only [List.map_cons]
        rw [List.nodup_cons]
        refine ⟨?_, hnd⟩
        intro hmem
        rcases List.mem_map.mp hmem with ⟨y, hy, hky⟩
        have hkmem : discoveryKey y ∈ discoveryKey c :: keys := by
          rw [hky]
          exact List.mem_cons_self _ _
        exact hnot y hy hkmem
    · rw [if_neg hc]
      exact ih keys newV maxR

theorem idPairD_eq_imp_key_eq {a b : DVenue} (h : idPairD a = idPairD b) :
    discoveryKey a = discoveryKey b := by
  unfold idPairD at h
  obtain ⟨h1, h2⟩ := Prod.mk.injEq .. ▸ h
  unfold discoveryKey
  rw [h1, h2]

/-- C4 amended: discovery de-duplicates by the concatenated lower-cased
name++location key against all previously discovered records (so if the
prior keys were distinct, the keys — and hence the case-insensitive
identity pairs — stay distinct after a discovery run); promotion
de-duplicates by the lower-cased name alone, and only against the
pre-existing master records: every promoted venue's lower-cased name is
new to the master collection, but duplicates inside the approved batch are
not detected. -/
theorem dedup_keys_amended :
    (∀ (discovered cands : List DVenue) (maxR : Nat),
        (discovered.map discoveryKey).Nodup →
        ((discoverVenuesResult discovered cands maxR).map discoveryKey).Nodup ∧
        List.Pairwise (fun a b => idPairD a ≠ idPairD b)
          (discoverVenuesResult discovered cands maxR)) ∧
    (∀ (existing : List Venue) (discovered : List DVenue), ∃ uniq,
        addApprovedVenues existing discovered = existing ++ uniq ∧
        ∀ v ∈ uniq, jsLower v.name ∉ existing.map (fun w => jsLower w.name)) := by
  constructor
  · intro discovered cands maxR h
    obtain ⟨extra, heq, hnot, hnd⟩ :=
      addCandidates_spec cands (discovered.map discoveryKey) [] maxR
    have hres : discoverVenuesResult discovered cands maxR = discovered ++ extra := by
      unfold discoverVenuesResult
      rw [heq]
      simp
    have hkeys : ((discoverVenuesResult discovered cands maxR).map discoveryKey).Nodup := by
      rw [hres, List.map_append]
      rw [List.nodup_append]
      refine ⟨h, hnd, ?_⟩
      intro a ha hb
      rcases List.mem_map.mp hb with ⟨y, hy, hky⟩
      exact hnot y hy (hky ▸ ha)
    refine ⟨hkeys, ?_⟩
    have hpw : List.Pairwise (fun a b : DVenue => discoveryKey a ≠ discoveryKey b)
        (discoverVenuesResult discovered cands maxR) :=
      List.pairwise_map.mp hkeys
    exact hpw.imp (fun hne hpair => hne (idPairD_eq_imp_key_eq hpair))
  · intro existing discovered
    unfold addApprovedVenues
    dsimp only
    by_cases ha : (discovered.filter (fun v => v.status == "approved")).isEmpty
    · rw [if_pos ha]
      exact ⟨[], by simp, fun v hv => absurd hv (List.not_mem_nil v)⟩
    · rw [if_neg ha]
      by_cases hu : (((discovered.filter (fun v => v.status == "approved")).map
          toMasterVenue).filter
            (fun v => jsLower v.name ∉ existing.map (fun w => jsLower w.name))).isEmpty
      · rw [if_pos hu]
        exact ⟨[], by simp, fun v hv => absurd hv (List.not_mem_nil v)⟩
      · rw [if_neg hu]
        refine ⟨_, rfl, ?_⟩
        intro v hv
        have := (List.mem_filter.mp hv).2
        exact of_decide_eq_true this

/-- C4 witness: the discovery half of the amended statement at a concrete
store (one prior record, one case-insensitive duplicate candidate, one new
candidate). -/
theorem dedup_keys_amended_witness :
    ((discoverVenuesResult
        [⟨"The Pour House", "Raleigh", "", "", "", "", "", "pending"⟩]
        [⟨"THE POUR HOUSE", "raleigh", "", "", "", "", "", "pending"⟩,
         ⟨"Kings", "Raleigh", "", "", "", "", "", "pending"⟩]
        50).map discoveryKey).Nodup ∧
    List.Pairwise (fun a b => idPairD a ≠ idPairD b)
      (discoverVenuesResult
        [⟨"The Pour House", "Raleigh", "", "", "", "", "", "pending"⟩]
        [⟨"THE POUR HOUSE", "raleigh", "", "", "", "", "", "pending"⟩,
         ⟨"Kings", "Raleigh", "", "", "", "", "", "pending"⟩]
        50) :=
  dedup_keys_amended.1
    [⟨"The Pour House", "Raleigh", "", "", "", "", "", "pending"⟩]
    [⟨"THE POUR HOUSE", "raleigh", "", "", "", "", "", "pending"⟩,
     ⟨"Kings", "Raleigh", "", "", "", "", "", "pending"⟩]
    50 (by decide)

theorem findVenueIdx_ok_some_get :
    ∀ (venues : List StoredVenue) (nm loc : String) (i : Nat),
    findVenueIdx venues nm loc = .ok (some i) → ∃ v, venues.get? i = some v := by
  intro venues
  induction venues with
  | nil =>
    intro nm loc i h
    cases h
  | cons v rest ih =>
    intro nm loc i h
    unfold findVenueIdx at h
    cases hn : v.name with
    | none =>
      rw [hn] at h
      cases h
    | some n =>
      rw [hn] at h
      try dsimp only at h
      by_cases hnm : jsLower n = jsLower nm
      · rw [if_pos hnm] at h
        cases hl : v.location with
        | none =>
          rw [hl] at h
          cases h
        | some l =>
          rw [hl] at h
          try dsimp only at h
          by_cases hloc : jsLower l = jsLower loc
          · rw [if_pos hloc] at h
            have h0 : (0 : Nat) = i := by
              injection h with h
              injection h
            subst h0
            exact ⟨v, rfl⟩
          · rw [if_neg hloc] at h
            cases hrec : findVenueIdx rest nm loc with
            | error e =>
              rw [hrec] at h
              cases h
            | ok o =>
              rw [hrec] at h
              try dsimp only at h
              cases o with
              | none => cases h
              | some j =>
                have hj : j + 1 = i := by
                  injection h with h
                  injection h
                subst hj
                obtain ⟨w, hw⟩ := ih nm loc j hrec
                exact ⟨w, hw⟩
      · rw [if_neg hnm] at h
        cases hrec : findVenueIdx rest nm loc with
        | error e =>
          rw [hrec] at h
          cases h
        | ok o =>
          rw [hrec] at h
          try dsimp only at h
          cases o with
          | none => cases h
          | some j =>
            have hj : j + 1 = i := by
              injection h with h
              injection h
            subst hj
            obtain ⟨w, hw⟩ := ih nm loc j hrec
            exact ⟨w, hw⟩

theorem findVenueIdx_error_of_malformed :
    ∀ (pre : List StoredVenue) (mal : StoredVenue) (post : List StoredVenue)
      (nm loc : String),
    (∀ v ∈ pre, venueSkips v nm loc) →
    (mal.name = none ∨
      ∃ n, mal.name = some n ∧ jsLower n = jsLower nm ∧ mal.location = none) →
    findVenueIdx (pre ++ mal :: post) nm loc = .error () := by
  intro pre
  induction pre with
  | nil =>
    intro mal post nm loc _ hmal
    simp only [List.nil_append]
    unfold findVenueIdx
    rcases hmal with hn | ⟨n, hn, hmatch, hl⟩
    · rw [hn]
    · rw [hn]
      dsimp only
      rw [if_pos hmatch, hl]
  | cons v pre' ih =>
    intro mal post nm loc hskip hmal
    obtain ⟨n, hn, hrest⟩ := hskip v (List.mem_cons_self v pre')
    have hih := ih mal post nm loc (fun w hw => hskip w (List.mem_cons_of_mem _ hw)) hmal
    simp only [List.cons_append]
    unfold findVenueIdx
    rw [hn]
    dsimp only
    rcases hrest with hne | ⟨l, hl, hlne⟩
    · rw [if_neg hne, hih]
    · by_cases hnm : jsLower n = jsLower nm
      · rw [if_pos hnm, hl]
        dsimp only
        rw [if_neg hlne, hih]
      · rw [if_neg hnm, hih]

/-- C6: the set-status operation succeeds and rewrites the matched record's
status — regardless of its prior status, so approving a rejected record
succeeds (last-write-wins) — when the case-insensitive pair lookup finds a
record; it returns false and leaves the collection untouched when no record
matches or when the scan reaches a malformed record whose identity fields
cannot be compared. -/
theorem updateVenueStatus_spec :
    (∀ (venues : List StoredVenue) (nm loc status : String) (i : Nat),
        findVenueIdx venues nm loc = .ok (some i) →
        (updateVenueStatus venues nm loc status).1 = true ∧
        ∃ v, venues.get? i = some v ∧
          (updateVenueStatus venues nm loc status).2 =
            venues.set i { v with status := some status }) ∧
    (∀ (venues : List StoredVenue) (nm loc status : String),
        findVenueIdx venues nm loc = .ok none →
        updateVenueStatus venues nm loc status = (false, venues)) ∧
    (∀ (venues : List StoredVenue) (nm loc status : String),
        findVenueIdx venues nm loc = .error () →
        updateVenueStatus venues nm loc status = (false, venues)) ∧
    (∀ (pre : List StoredVenue) (mal : StoredVenue) (post : List StoredVenue)
        (nm loc status : String),
        (∀ v ∈ pre, venueSkips v nm loc) →
        (mal.name = none ∨
          ∃ n, mal.name = some n ∧ jsLower n = jsLower nm ∧ mal.location = none) →
        updateVenueStatus (pre ++ mal :: post) nm loc status =
          (false, pre ++ mal :: post)) := by
  refine ⟨?_, ?_, ?_, ?_⟩
  · intro venues nm loc status i h
    obtain ⟨v, hv⟩ := findVenueIdx_ok_some_get venues nm loc i h
    unfold updateVenueStatus
    rw [h]
    dsimp only
    refine ⟨rfl, v, hv, ?_⟩
    unfold setStatusAt
    rw [hv]
  · intro venues nm loc status h
    unfold updateVenueStatus
    rw [h]
  · intro venues nm loc status h
    unfold updateVenueStatus
    rw [h]
  · intro pre mal post nm loc status hskip hmal
    have herr := findVenueIdx_error_of_malformed pre mal post nm loc hskip hmal
    unfold updateVenueStatus
    rw [herr]

/-- C6 witness: approving a rejected record succeeds and rewrites its
status; an absent pair reports not found; a record with a missing name
reports not found without touching the store. -/
theorem updateVenueStatus_spec_witness :
    ((updateVenueStatus [⟨some "The Cave", some "Chapel Hill", some "rejected"⟩]
        "the cave" "CHAPEL HILL" "approved").1 = true ∧
      ∃ v, [(⟨some "The Cave", some "Chapel Hill", some "rejected"⟩ : StoredVenue)].get? 0 =
          some v ∧
        (updateVenueStatus [⟨some "The Cave", some "Chapel Hill", some "rejected"⟩]
            "the cave" "CHAPEL HILL" "approved").2 =
          [(⟨some "The Cave", some "Chapel Hill", some "rejected"⟩ : StoredVenue)].set 0
            { v with status := some "approved" }) ∧
    updateVenueStatus [⟨some "The Cave", some "Chapel Hill", some "rejected"⟩]
        "kings" "raleigh" "approved" =
      (false, [⟨some "The Cave", some "Chapel Hill", some "rejected"⟩]) ∧
    updateVenueStatus [⟨none, some "Durham", some "pending"⟩] "x" "y" "approved" =
      (false, [⟨none, some "Durham", some "pending"⟩]) :=
  ⟨updateVenueStatus_spec.1 [⟨some "The Cave", some "Chapel Hill", some "rejected"⟩]
      "the cave" "CHAPEL HILL" "approved" 0 (by rfl),
   updateVenueStatus_spec.2.1 [⟨some "The Cave", some "Chapel Hill", some "rejected"⟩]
      "kings" "raleigh" "approved" (by rfl),
   updateVenueStatus_spec.2.2.2 [] ⟨none, some "Durham", some "pending"⟩ [] "x" "y"
      "approved" (fun v hv => absurd hv (List.not_mem_nil v)) (Or.inl rfl)⟩
